import Mathlib

/-!
Shallow embedding of `src/lib.rs` of the pt-rtd crate: conversion between
resistance and temperature for platinum RTD sensors (DIN EN 60751:2009-05),
plus an ADC-code-to-resistance helper.

Numeric model: the source computes in `f32`; here the arithmetic is exact
(`ℚ` for inputs and all closed-form rational computation, `ℝ` only where the
source calls `sqrtf`). Every `f32` value is a rational number, so `ℚ` is a
faithful input domain; rounding of individual `f32` operations is not
modelled. Branch structure, bounds checks and error paths follow the source
line by line.
-/

namespace RTD

/-- Mirrors `enum Error { OutOfBounds, NonexistentType }` (src/lib.rs:130-134). -/
inductive Error where
  | OutOfBounds
  | NonexistentType
deriving DecidableEq, Repr

/-- Mirrors `enum ADCRes` (src/lib.rs:18-28); each variant's value below is the
Rust discriminant. -/
inductive ADCRes where
  | B8 | B10 | B12 | B14 | B16 | B18 | B20 | B22 | B24
deriving DecidableEq, Repr

/-- The discriminant of an `ADCRes` variant, i.e. what `res as u32` yields. -/
def ADCRes.val : ADCRes → ℕ
  | .B8 => 255
  | .B10 => 1023
  | .B12 => 4095
  | .B14 => 16383
  | .B16 => 65535
  | .B18 => 262143
  | .B20 => 1048575
  | .B22 => 4194303
  | .B24 => 16777215

/-- Mirrors `enum RTDType` (src/lib.rs:33-38). -/
inductive RTDType where
  | PT100 | PT200 | PT500 | PT1000
deriving DecidableEq, Repr

/-- The discriminant of an `RTDType` variant, i.e. what `r_0 as i32` yields:
the nominal resistance at 0 °C. -/
def RTDType.val : RTDType → ℤ
  | .PT100 => 100
  | .PT200 => 200
  | .PT500 => 500
  | .PT1000 => 1000

/-- Mirrors `type Polynomial = [f32; 6]` (src/lib.rs:52), as a length-6 list of
exact rationals, index 0 first. -/
abbrev Polynomial6 := List ℚ

/-- `RTDCorrection::PT100` (src/lib.rs:45-46). -/
def RTDCorrection.pt100 : Polynomial6 :=
  [1.51892983e-10, -2.85842067e-08, -5.34227299e-06,
   1.80282972e-03, -1.61875985e-01, 4.84112370]

/-- `RTDCorrection::PT200` (src/lib.rs:47): all-zero placeholder. -/
def RTDCorrection.pt200 : Polynomial6 := [0, 0, 0, 0, 0, 0]

/-- `RTDCorrection::PT500` (src/lib.rs:48): all-zero placeholder. -/
def RTDCorrection.pt500 : Polynomial6 := [0, 0, 0, 0, 0, 0]

/-- `RTDCorrection::PT1000` (src/lib.rs:49-50). -/
def RTDCorrection.pt1000 : Polynomial6 :=
  [1.51892983e-15, -2.85842067e-12, -5.34227299e-09,
   1.80282972e-05, -1.61875985e-02, 4.84112370]

/-- `const A: f32 = 3.9083e-3` (src/lib.rs:54). -/
def A : ℚ := 3.9083e-3

/-- `const B: f32 = -5.7750e-7` (src/lib.rs:55). -/
def B : ℚ := -5.7750e-7

/-- `const C: f32 = -4.1830e-12` (src/lib.rs:56). -/
def C : ℚ := -4.1830e-12

/-- Mirrors `calc_r` (src/lib.rs:101-108): resistance of the RTD at
temperature `t`. The source matches on `floorf(t) as i32` with arms
`0..=850`, `-200..=-1`, `_`. -/
def calc_r (t : ℚ) (r_0 : RTDType) : Except Error ℚ :=
  let r0 : ℤ := r_0.val
  let ft : ℤ := ⌊t⌋
  if 0 ≤ ft ∧ ft ≤ 850 then
    .ok ((r0 : ℚ) * (1 + A * t + B * t ^ 2))
  else if -200 ≤ ft ∧ ft ≤ -1 then
    .ok ((r0 : ℚ) * (1 + A * t + B * t ^ 2 + C * (t - 100) * t ^ 3))
  else
    .error .OutOfBounds

/-- Mirrors `poly_correction` (src/lib.rs:122-128): starting from `0`, add
`factor * r^i` for each index/element pair of the array. -/
def poly_correction (r : ℚ) (poly : Polynomial6) : ℚ :=
  poly.enum.foldl (fun res x => res + x.2 * r ^ x.1) 0

/-- Models `Result::unwrap()` on the two internal `calc_r` calls of `calc_t`
(src/lib.rs:62-63). The panic case is represented by a default value; the
theorem for C9 proves it is never reached (both calls return `Ok`). -/
def unwrap_or0 (x : Except Error ℚ) : ℚ :=
  match x with
  | .ok v => v
  | .error _ => 0

/-- The `corr_poly` match of `calc_t` (src/lib.rs:66-71): select the
correctional polynomial for `t < 0 °C`; every arm yields `Ok`. -/
def corr_table (r_0 : RTDType) : Except Error Polynomial6 :=
  match r_0 with
  | .PT100 => .ok RTDCorrection.pt100
  | .PT200 => .ok RTDCorrection.pt200
  | .PT500 => .ok RTDCorrection.pt500
  | .PT1000 => .ok RTDCorrection.pt1000

/-- The quadratic-inverse expression of src/lib.rs:75:
`(-r_0*A + sqrtf(powf(r_0,2)*powf(A,2) - 4*r_0*B*(r_0 - r))) / (2*r_0*B)`.
The radicand and all coefficients are rational; only the square root needs ℝ. -/
noncomputable def quad_inv (r : ℚ) (r0q : ℚ) : ℝ :=
  (-(r0q : ℝ) * (A : ℝ)
    + Real.sqrt ((r0q ^ 2 * A ^ 2 - 4 * r0q * B * (r0q - r) : ℚ) : ℝ))
    / (2 * (r0q : ℝ) * (B : ℝ))

/-- Mirrors `calc_t` (src/lib.rs:61-95): temperature of the RTD from a
resistance value `r`. Note the source's `match (floorf(r) as i32, r_0 as i32)`
rebinds `r` to the floored integer inside both arms, so the correction arm
passes the floored value (`r as f32`) to `poly_correction`. -/
noncomputable def calc_t (r : ℚ) (r_0 : RTDType) : Except Error ℝ :=
  let r_min : ℤ := ⌊unwrap_or0 (calc_r (-200) r_0)⌋
  let r_max : ℤ := ⌊unwrap_or0 (calc_r 850 r_0)⌋
  let corr_poly : Except Error Polynomial6 := corr_table r_0
  let r0q : ℚ := (r_0.val : ℚ)
  let t : ℝ := quad_inv r r0q
  match corr_poly with
  | .ok poly =>
    let fr : ℤ := ⌊r⌋
    let r0i : ℤ := r_0.val
    if r0i ≤ fr ∧ fr ≤ r_max then
      .ok t
    else if r_min ≤ fr ∧ fr < r0i then
      .ok (t + ((poly_correction ((fr : ℚ)) poly : ℚ) : ℝ))
    else
      .error .OutOfBounds
  | .error _ => .error .NonexistentType

/-- Mirrors `conv_d_val_to_r` (src/lib.rs:112-118): scale a digital ADC code
to a resistance. -/
def conv_d_val_to_r (d_val : ℕ) (r_ref : ℕ) (res : ADCRes) (pga_gain : ℕ) :
    Except Error ℚ :=
  let resv : ℕ := res.val
  if d_val ≤ resv then
    .ok ((d_val : ℚ) * (r_ref : ℚ) / ((resv : ℚ) * (pga_gain : ℚ)))
  else
    .error .OutOfBounds

/-! Helper lemmas shared by the claim theorems. -/

theorem RTDType.val_pos (r_0 : RTDType) : 0 < r_0.val := by
  cases r_0 <;> decide

theorem floor_mem_quad_range {t : ℚ} (h0 : 0 ≤ t) (h1 : t ≤ 850) :
    0 ≤ ⌊t⌋ ∧ ⌊t⌋ ≤ 850 := by
  refine ⟨Int.floor_nonneg.mpr h0, ?_⟩
  have h : ⌊t⌋ < 851 := Int.floor_lt.mpr (by exact_mod_cast lt_of_le_of_lt h1 (by norm_num))
  omega

theorem floor_mem_cubic_range {t : ℚ} (h0 : -200 ≤ t) (h1 : t < 0) :
    -200 ≤ ⌊t⌋ ∧ ⌊t⌋ ≤ -1 := by
  refine ⟨Int.le_floor.mpr (by exact_mod_cast h0), ?_⟩
  have h : ⌊t⌋ < 0 := Int.floor_lt.mpr (by exact_mod_cast h1)
  omega

/-- On `0 ≤ t ≤ 850` the source's `calc_r` takes the first match arm. -/
theorem calc_r_quad (t : ℚ) (r_0 : RTDType) (h0 : 0 ≤ t) (h1 : t ≤ 850) :
    calc_r t r_0 = .ok ((r_0.val : ℚ) * (1 + A * t + B * t ^ 2)) := by
  obtain ⟨ha, hb⟩ := floor_mem_quad_range h0 h1
  simp only [calc_r]
  rw [if_pos ⟨ha, hb⟩]

/-- On `-200 ≤ t < 0` the source's `calc_r` takes the second match arm. -/
theorem calc_r_cubic (t : ℚ) (r_0 : RTDType) (h0 : -200 ≤ t) (h1 : t < 0) :
    calc_r t r_0 =
      .ok ((r_0.val : ℚ) * (1 + A * t + B * t ^ 2 + C * (t - 100) * t ^ 3)) := by
  obtain ⟨ha, hb⟩ := floor_mem_cubic_range h0 h1
  simp only [calc_r]
  rw [if_neg (by omega), if_pos ⟨ha, hb⟩]

/-- The quadratic body of `calc_r` is strictly increasing up to 850 °C. -/
theorem quad_lt_quad {t1 t2 : ℚ} (hlt : t1 < t2) (h850 : t2 ≤ 850) :
    1 + A * t1 + B * t1 ^ 2 < 1 + A * t2 + B * t2 ^ 2 := by
  have key : (1 + A * t2 + B * t2 ^ 2) - (1 + A * t1 + B * t1 ^ 2)
      = (t2 - t1) * (A + B * (t1 + t2)) := by ring
  have hsum : t1 + t2 ≤ 1700 := by linarith
  have hb : 0 < A + B * (t1 + t2) := by
    rw [A, B] at *
    nlinarith
  nlinarith [mul_pos (sub_pos.mpr hlt) hb]

theorem quad_le_850 {t : ℚ} (h850 : t ≤ 850) :
    1 + A * t + B * t ^ 2 ≤ 1 + A * 850 + B * 850 ^ 2 := by
  rcases eq_or_lt_of_le h850 with h | h
  · rw [h]
  · exact le_of_lt (quad_lt_quad h (le_refl 850))

/-- Below 0 °C the cubic body of `calc_r` lies strictly below the quadratic. -/
theorem cubic_lt_quad {t : ℚ} (hneg : t < 0) :
    1 + A * t + B * t ^ 2 + C * (t - 100) * t ^ 3 < 1 + A * t + B * t ^ 2 := by
  have h3 : t ^ 3 < 0 := Odd.pow_neg (by decide) hneg
  have hm : 0 < (t - 100) * t ^ 3 := mul_pos_of_neg_of_neg (by linarith) h3
  have hC : C < 0 := by rw [C]; norm_num
  nlinarith

/-- The cubic body of `calc_r` is strictly increasing below 0 °C. -/
theorem cubic_lt_cubic {t1 t2 : ℚ} (hlt : t1 < t2) (hneg : t2 < 0) :
    1 + A * t1 + B * t1 ^ 2 + C * (t1 - 100) * t1 ^ 3
      < 1 + A * t2 + B * t2 ^ 2 + C * (t2 - 100) * t2 ^ 3 := by
  have key : (1 + A * t2 + B * t2 ^ 2 + C * (t2 - 100) * t2 ^ 3)
      - (1 + A * t1 + B * t1 ^ 2 + C * (t1 - 100) * t1 ^ 3)
      = (t2 - t1) * (A + B * (t1 + t2) + (-100 * C) * (t1 ^ 2 + t1 * t2 + t2 ^ 2)
          + C * (t1 + t2) * (t1 ^ 2 + t2 ^ 2)) := by ring
  have ht1 : t1 < 0 := lt_trans hlt hneg
  have hsum : t1 + t2 < 0 := by linarith
  have hq : 0 ≤ t1 ^ 2 + t1 * t2 + t2 ^ 2 := by
    nlinarith [sq_nonneg (t1 + t2), sq_nonneg t1, sq_nonneg t2]
  have hB : B * (t1 + t2) > 0 := mul_pos_of_neg_of_neg (by rw [B]; norm_num) hsum
  have h3 : 0 ≤ (-100 * C) * (t1 ^ 2 + t1 * t2 + t2 ^ 2) := by
    apply mul_nonneg _ hq
    rw [C]; norm_num
  have h4 : 0 ≤ C * (t1 + t2) * (t1 ^ 2 + t2 ^ 2) := by
    apply mul_nonneg _ (by positivity)
    exact le_of_lt (mul_pos_of_neg_of_neg (by rw [C]; norm_num) hsum)
  have hA : 0 < A := by rw [A]; norm_num
  have hbr : 0 < A + B * (t1 + t2) + (-100 * C) * (t1 ^ 2 + t1 * t2 + t2 ^ 2)
      + C * (t1 + t2) * (t1 ^ 2 + t2 ^ 2) := by linarith
  nlinarith [mul_pos (sub_pos.mpr hlt) hbr]

/-- Closed-form evaluation of the quadratic inverse of src/lib.rs:75 at a
resistance produced by the quadratic forward formula. -/
theorem quad_inv_eval (r r0q t : ℚ) (h0 : 0 < r0q) (hc : 0 ≤ A + 2 * B * t)
    (hr : r = r0q * (1 + A * t + B * t ^ 2)) : quad_inv r r0q = (t : ℝ) := by
  unfold quad_inv
  have hrad : (r0q ^ 2 * A ^ 2 - 4 * r0q * B * (r0q - r) : ℚ)
      = (r0q * (A + 2 * B * t)) ^ 2 := by rw [hr]; ring
  rw [hrad]
  have hcast : (((r0q * (A + 2 * B * t)) ^ 2 : ℚ) : ℝ)
      = ((r0q * (A + 2 * B * t) : ℚ) : ℝ) ^ 2 := by push_cast; ring
  rw [hcast, Real.sqrt_sq (by exact_mod_cast mul_nonneg h0.le hc)]
  have hBq : (B : ℚ) ≠ 0 := by rw [B]; norm_num
  have hB : ((B : ℚ) : ℝ) ≠ 0 := by exact_mod_cast hBq
  have hr0 : ((r0q : ℚ) : ℝ) ≠ 0 := by exact_mod_cast h0.ne.symm
  push_cast
  field_simp
  ring

theorem quad_inv_nominal (r0q : ℚ) (h0 : 0 < r0q) : quad_inv r0q r0q = 0 := by
  have h := quad_inv_eval r0q r0q 0 h0 (by rw [A, B]; norm_num) (by ring)
  simpa using h

/-- Unfolding of `calc_t` in the first match arm (`t ≥ 0 °C`, src/lib.rs:80-83). -/
theorem calc_t_branch1 (r : ℚ) (r_0 : RTDType)
    (h : r_0.val ≤ ⌊r⌋ ∧ ⌊r⌋ ≤ ⌊unwrap_or0 (calc_r 850 r_0)⌋) :
    calc_t r r_0 = .ok (quad_inv r (r_0.val : ℚ)) := by
  cases r_0 <;>
  · simp only [calc_t, corr_table]
    rw [if_pos h]

/-- Concrete lower resistance bound of `calc_t` for PT100 (src/lib.rs:62). -/
theorem r_min_PT100 : ⌊unwrap_or0 (calc_r (-200) RTDType.PT100)⌋ = 18 := by
  rw [calc_r_cubic (-200) _ (by norm_num) (by norm_num)]
  simp only [unwrap_or0, RTDType.val]
  norm_num [A, B, C]

/-- Concrete upper resistance bound of `calc_t` for PT100 (src/lib.rs:63). -/
theorem r_max_PT100 : ⌊unwrap_or0 (calc_r 850 RTDType.PT100)⌋ = 390 := by
  rw [calc_r_quad 850 _ (by norm_num) (by norm_num)]
  simp only [unwrap_or0, RTDType.val]
  norm_num [A, B]

/-! Claim theorems. -/

/-- C1: the claim states that on the correction branch (`r_min ≤ floor(r) < r0`)
`calc_t` returns the quadratic inverse plus `poly_correction` evaluated at the
raw resistance `r`. The code instead evaluates the polynomial at `floor(r)`:
the match on `(floorf(r) as i32, r_0 as i32)` rebinds `r`, so
`poly_correction(r as f32, poly)` receives the floored value. At the failing
input `r = 50.5`, PT100, the result uses `poly_correction 50`, which differs
from `poly_correction 50.5`, so the returned temperature is not the claimed
value. -/
theorem calc_t_correction_uses_floored_resistance :
    calc_t (101/2) RTDType.PT100
      = .ok (quad_inv (101/2) 100 + ((poly_correction 50 RTDCorrection.pt100 : ℚ) : ℝ)) ∧
    poly_correction (101/2) RTDCorrection.pt100 ≠ poly_correction 50 RTDCorrection.pt100 ∧
    calc_t (101/2) RTDType.PT100
      ≠ .ok (quad_inv (101/2) 100 + ((poly_correction (101/2) RTDCorrection.pt100 : ℚ) : ℝ)) := by
  have hne : poly_correction (101/2) RTDCorrection.pt100
      ≠ poly_correction 50 RTDCorrection.pt100 := by
    norm_num [poly_correction, List.enum, RTDCorrection.pt100]
  have h1 : calc_t (101/2) RTDType.PT100
      = .ok (quad_inv (101/2) 100 + ((poly_correction 50 RTDCorrection.pt100 : ℚ) : ℝ)) := by
    simp only [calc_t, corr_table]
    rw [if_neg (by rw [r_max_PT100]; norm_num [RTDType.val]),
      if_pos (by rw [r_min_PT100]; norm_num [RTDType.val])]
    rw [show ((RTDType.val RTDType.PT100 : ℤ) : ℚ) = 100 by norm_num [RTDType.val],
      show ((⌊(101/2 : ℚ)⌋ : ℤ) : ℚ) = 50 by norm_num]
  refine ⟨h1, hne, fun hC => hne ?_⟩
  rw [h1] at hC
  have h2 : quad_inv (101/2) 100 + ((poly_correction 50 RTDCorrection.pt100 : ℚ) : ℝ)
      = quad_inv (101/2) 100 + ((poly_correction (101/2) RTDCorrection.pt100 : ℚ) : ℝ) :=
    Except.ok.inj hC
  have h3 := add_left_cancel h2
  exact_mod_cast h3.symm

/-- C2 (counterexample): the claim says `calc_r` returns `Err(OutOfBounds)` for
every `t > 850`, but at `t = 850.5` the floor-based range check passes
(`floorf(850.5) = 850`) and the function returns `Ok`. -/
theorem calc_r_accepts_above_850 :
    (calc_r (1701/2) RTDType.PT100).isOk = true ∧ ¬ ((1701/2 : ℚ) ≤ 850) := by
  constructor
  · have h : calc_r (1701/2) RTDType.PT100
        = .ok ((100 : ℚ) * (1 + A * (1701/2) + B * (1701/2) ^ 2)) := by
      simp only [calc_r, RTDType.val]
      norm_num
    rw [h]
    rfl
  · norm_num

/-- C2 (amended): `calc_r` succeeds exactly when `floor(t) ∈ [-200, 850]`,
i.e. for `-200 ≤ t < 851`; in particular it is `Ok` on all of `[-200, 850]`
and `Err(OutOfBounds)` exactly on `t < -200` or `t ≥ 851` (not `t > 850`). -/
theorem calc_r_ok_iff :
    ∀ (r_0 : RTDType) (t : ℚ),
      (calc_r t r_0).isOk = true ↔ (-200 ≤ t ∧ t < 851) := by
  intro r_0 t
  simp only [calc_r]
  split_ifs with h1 h2
  · simp only [Except.isOk, Except.toBool, true_iff]
    obtain ⟨ha, hb⟩ := h1
    constructor
    · calc (-200 : ℚ) ≤ 0 := by norm_num
        _ ≤ (⌊t⌋ : ℚ) := by exact_mod_cast ha
        _ ≤ t := Int.floor_le t
    · have := Int.lt_floor_add_one t
      have hc : (⌊t⌋ : ℚ) + 1 ≤ 851 := by exact_mod_cast Int.add_one_le_iff.mpr (by omega)
      linarith
  · simp only [Except.isOk, Except.toBool, true_iff]
    obtain ⟨ha, hb⟩ := h2
    constructor
    · calc (-200 : ℚ) = ((-200 : ℤ) : ℚ) := by norm_num
        _ ≤ (⌊t⌋ : ℚ) := by exact_mod_cast ha
        _ ≤ t := Int.floor_le t
    · have := Int.lt_floor_add_one t
      have hc : (⌊t⌋ : ℚ) + 1 ≤ 851 := by exact_mod_cast Int.add_one_le_iff.mpr (by omega)
      linarith
  · refine iff_of_false (by decide) ?_
    rintro ⟨ha, hb⟩
    have hfa : -200 ≤ ⌊t⌋ := Int.le_floor.mpr (by exact_mod_cast ha)
    have hfb : ⌊t⌋ < 851 := Int.floor_lt.mpr (by exact_mod_cast hb)
    omega

/-- C3: on every accepted temperature, `calc_r` evaluates the IEC 60751
formulas: the quadratic `R0·(1 + A·t + B·t²)` on `[0, 850]` and the cubic
augmentation `R0·(1 + A·t + B·t² + C·(t−100)·t³)` on `[-200, -1]`, with
A = 3.9083e-3, B = -5.7750e-7, C = -4.1830e-12. -/
theorem calc_r_formula :
    ∀ (r_0 : RTDType) (t : ℚ),
      (0 ≤ t → t ≤ 850 → calc_r t r_0 =
        .ok ((r_0.val : ℚ) * (1 + 3.9083e-3 * t + (-5.7750e-7) * t ^ 2))) ∧
      (-200 ≤ t → t ≤ -1 → calc_r t r_0 =
        .ok ((r_0.val : ℚ) * (1 + 3.9083e-3 * t + (-5.7750e-7) * t ^ 2
          + (-4.1830e-12) * (t - 100) * t ^ 3))) := by
  intro r_0 t
  constructor
  · intro h0 h1
    rw [calc_r_quad t r_0 h0 h1, A, B]
  · intro h0 h1
    rw [calc_r_cubic t r_0 h0 (lt_of_le_of_lt h1 (by norm_num)), A, B, C]

/-- Witness for C3 at `t = 1` (quadratic arm) and `t = -2` (cubic arm). -/
theorem calc_r_formula_witness :
    calc_r 1 RTDType.PT100 =
      .ok ((RTDType.val RTDType.PT100 : ℚ) * (1 + 3.9083e-3 * 1 + (-5.7750e-7) * 1 ^ 2)) ∧
    calc_r (-2) RTDType.PT100 =
      .ok ((RTDType.val RTDType.PT100 : ℚ) * (1 + 3.9083e-3 * (-2) + (-5.7750e-7) * (-2) ^ 2
        + (-4.1830e-12) * ((-2) - 100) * (-2) ^ 3)) :=
  ⟨(calc_r_formula RTDType.PT100 1).1 (by norm_num) (by norm_num),
   (calc_r_formula RTDType.PT100 (-2)).2 (by norm_num) (by norm_num)⟩

/-- C4: `conv_d_val_to_r` errors with `OutOfBounds` exactly when the code
exceeds the resolution's maximum, otherwise scales linearly by
`code·r_ref / (max_code·pga_gain)`; for a 12-bit ADC with `r_ref = 1000`,
gain 1, code 4095 yields exactly 1000 and code 0 yields exactly 0. -/
theorem conv_d_val_to_r_spec :
    (∀ (d_val r_ref pga_gain : ℕ) (res : ADCRes),
      (d_val ≤ res.val → conv_d_val_to_r d_val r_ref res pga_gain =
        .ok ((d_val : ℚ) * (r_ref : ℚ) / ((res.val : ℚ) * (pga_gain : ℚ)))) ∧
      (res.val < d_val → conv_d_val_to_r d_val r_ref res pga_gain = .error .OutOfBounds)) ∧
    conv_d_val_to_r 4095 1000 ADCRes.B12 1 = .ok 1000 ∧
    conv_d_val_to_r 0 1000 ADCRes.B12 1 = .ok 0 := by
  refine ⟨fun d_val r_ref pga_gain res => ⟨fun h => ?_, fun h => ?_⟩, ?_, ?_⟩
  · simp only [conv_d_val_to_r]
    rw [if_pos h]
  · simp only [conv_d_val_to_r]
    rw [if_neg (by omega)]
  · simp only [conv_d_val_to_r, ADCRes.val]
    norm_num
  · simp only [conv_d_val_to_r, ADCRes.val]
    norm_num

/-- Witness for C4 at an in-range and an out-of-range code of an 8-bit ADC. -/
theorem conv_d_val_to_r_spec_witness :
    conv_d_val_to_r 7 5 ADCRes.B8 2 = .ok ((7 : ℚ) * (5 : ℚ) / ((255 : ℚ) * (2 : ℚ))) ∧
    conv_d_val_to_r 300 5 ADCRes.B8 2 = .error .OutOfBounds :=
  ⟨(conv_d_val_to_r_spec.1 7 5 2 ADCRes.B8).1 (by norm_num [ADCRes.val]),
   (conv_d_val_to_r_spec.1 300 5 2 ADCRes.B8).2 (by norm_num [ADCRes.val])⟩

/-- C5: `calc_t` applied to the nominal resistance of each `RTDType` variant
returns exactly 0 °C (the radicand collapses to `(R0·A)²`, so the quadratic
inverse is exactly zero). -/
theorem calc_t_nominal_zero :
    calc_t 100 RTDType.PT100 = .ok 0 ∧ calc_t 200 RTDType.PT200 = .ok 0 ∧
    calc_t 500 RTDType.PT500 = .ok 0 ∧ calc_t 1000 RTDType.PT1000 = .ok 0 := by
  refine ⟨?_, ?_, ?_, ?_⟩
  · rw [calc_t_branch1 100 RTDType.PT100 ?_]
    · rw [show ((RTDType.val RTDType.PT100 : ℤ) : ℚ) = 100 by norm_num [RTDType.val],
        quad_inv_nominal 100 (by norm_num)]
    · refine ⟨by norm_num [RTDType.val], ?_⟩
      rw [calc_r_quad 850 _ (by norm_num) (by norm_num)]
      simp only [unwrap_or0, RTDType.val]
      norm_num [A, B]
  · rw [calc_t_branch1 200 RTDType.PT200 ?_]
    · rw [show ((RTDType.val RTDType.PT200 : ℤ) : ℚ) = 200 by norm_num [RTDType.val],
        quad_inv_nominal 200 (by norm_num)]
    · refine ⟨by norm_num [RTDType.val], ?_⟩
      rw [calc_r_quad 850 _ (by norm_num) (by norm_num)]
      simp only [unwrap_or0, RTDType.val]
      norm_num [A, B]
  · rw [calc_t_branch1 500 RTDType.PT500 ?_]
    · rw [show ((RTDType.val RTDType.PT500 : ℤ) : ℚ) = 500 by norm_num [RTDType.val],
        quad_inv_nominal 500 (by norm_num)]
    · refine ⟨by norm_num [RTDType.val], ?_⟩
      rw [calc_r_quad 850 _ (by norm_num) (by norm_num)]
      simp only [unwrap_or0, RTDType.val]
      norm_num [A, B]
  · rw [calc_t_branch1 1000 RTDType.PT1000 ?_]
    · rw [show ((RTDType.val RTDType.PT1000 : ℤ) : ℚ) = 1000 by norm_num [RTDType.val],
        quad_inv_nominal 1000 (by norm_num)]
    · refine ⟨by norm_num [RTDType.val], ?_⟩
      rw [calc_r_quad 850 _ (by norm_num) (by norm_num)]
      simp only [unwrap_or0, RTDType.val]
      norm_num [A, B]

/-- C6: for every `t ∈ [0, 850]`, `calc_t (calc_r t r_0) r_0` succeeds and
recovers `t` exactly (in the exact-arithmetic model), with the correction
branch not taken (`floor(r)` is at least nominal). -/
theorem roundtrip_nonneg_exact :
    ∀ (r_0 : RTDType) (t : ℚ), 0 ≤ t → t ≤ 850 →
      ∃ r : ℚ, calc_r t r_0 = .ok r ∧ r_0.val ≤ ⌊r⌋ ∧ calc_t r r_0 = .ok (t : ℝ) := by
  intro r_0 t h0 h1
  have hr0 : (0:ℚ) < ((r_0.val : ℤ) : ℚ) := by exact_mod_cast r_0.val_pos
  refine ⟨((r_0.val : ℤ) : ℚ) * (1 + A * t + B * t ^ 2), calc_r_quad t r_0 h0 h1, ?_, ?_⟩
  case _ =>
    apply Int.le_floor.mpr
    have hAB : 0 ≤ A + B * t := by rw [A, B]; nlinarith
    nlinarith [mul_nonneg h0 hAB]
  case _ =>
    have hfloor_ge : (r_0.val : ℤ) ≤ ⌊((r_0.val : ℤ) : ℚ) * (1 + A * t + B * t ^ 2)⌋ := by
      apply Int.le_floor.mpr
      have hAB : 0 ≤ A + B * t := by rw [A, B]; nlinarith
      nlinarith [mul_nonneg h0 hAB]
    have hmax : ⌊((r_0.val : ℤ) : ℚ) * (1 + A * t + B * t ^ 2)⌋
        ≤ ⌊unwrap_or0 (calc_r 850 r_0)⌋ := by
      rw [calc_r_quad 850 r_0 (by norm_num) (by norm_num)]
      simp only [unwrap_or0]
      apply Int.floor_mono
      have := quad_le_850 h1
      nlinarith
    rw [calc_t_branch1 _ r_0 ⟨hfloor_ge, hmax⟩]
    rw [quad_inv_eval _ _ t hr0 (by rw [A, B]; nlinarith) rfl]

/-- Witness for C6 at `t = 100`, PT100. -/
theorem roundtrip_nonneg_exact_witness :
    ∃ r : ℚ, calc_r 100 RTDType.PT100 = .ok r ∧ RTDType.val RTDType.PT100 ≤ ⌊r⌋ ∧
      calc_t r RTDType.PT100 = .ok ((100 : ℚ) : ℝ) :=
  roundtrip_nonneg_exact RTDType.PT100 100 (by norm_num) (by norm_num)

/-- C7: `calc_r` is strictly increasing in `t` over the whole domain
`[-200, 850]` for every `RTDType` variant. -/
theorem calc_r_strictMono :
    ∀ (r_0 : RTDType) (t1 t2 : ℚ), -200 ≤ t1 → t1 < t2 → t2 ≤ 850 →
      ∃ v1 v2 : ℚ, calc_r t1 r_0 = .ok v1 ∧ calc_r t2 r_0 = .ok v2 ∧ v1 < v2 := by
  intro r_0 t1 t2 ha hlt hb
  have hr0 : (0:ℚ) < ((r_0.val : ℤ) : ℚ) := by exact_mod_cast r_0.val_pos
  rcases le_or_lt 0 t1 with h1 | h1
  · exact ⟨_, _, calc_r_quad t1 r_0 h1 (by linarith), calc_r_quad t2 r_0 (by linarith) hb,
      mul_lt_mul_of_pos_left (quad_lt_quad hlt hb) hr0⟩
  · rcases le_or_lt 0 t2 with h2 | h2
    · refine ⟨_, _, calc_r_cubic t1 r_0 ha h1, calc_r_quad t2 r_0 h2 hb, ?_⟩
      have hq := cubic_lt_quad h1
      have h2q := quad_lt_quad hlt hb
      exact mul_lt_mul_of_pos_left (by linarith) hr0
    · exact ⟨_, _, calc_r_cubic t1 r_0 ha h1, calc_r_cubic t2 r_0 (by linarith) h2,
        mul_lt_mul_of_pos_left (cubic_lt_cubic hlt h2) hr0⟩

/-- Witness for C7 at `t1 = -100 < t2 = 100`, PT100. -/
theorem calc_r_strictMono_witness :
    ∃ v1 v2 : ℚ, calc_r (-100) RTDType.PT100 = .ok v1 ∧
      calc_r 100 RTDType.PT100 = .ok v2 ∧ v1 < v2 :=
  calc_r_strictMono RTDType.PT100 (-100) 100 (by norm_num) (by norm_num) (by norm_num)

/-- C8: whenever `calc_t` returns `Ok`, the correction arm's guard
(`r_min ≤ floor(r) < r0` from src/lib.rs:84) holds exactly when the measured
resistance is strictly below the nominal resistance of the `RTDType`. -/
theorem calc_t_correction_iff_below_nominal :
    ∀ (r_0 : RTDType) (r : ℚ), (calc_t r r_0).isOk = true →
      ((⌊unwrap_or0 (calc_r (-200) r_0)⌋ ≤ ⌊r⌋ ∧ ⌊r⌋ < r_0.val) ↔ r < (r_0.val : ℚ)) := by
  intro r_0 r h
  cases r_0 <;>
  · simp only [calc_t, corr_table] at h
    split_ifs at h with h1 h2
    · obtain ⟨ha, _⟩ := h1
      refine iff_of_false (fun hc => by omega) (not_lt.mpr (Int.le_floor.mp ha))
    · exact iff_of_true h2 (Int.floor_lt.mp h2.2)
    · exact absurd h (by decide)

/-- Witness for C8 at `r = 50.5`, PT100 (the correction arm is taken and
`50.5 < 100`). -/
theorem calc_t_correction_iff_below_nominal_witness :
    (⌊unwrap_or0 (calc_r (-200) RTDType.PT100)⌋ ≤ ⌊(101/2 : ℚ)⌋ ∧
        ⌊(101/2 : ℚ)⌋ < RTDType.val RTDType.PT100)
      ↔ (101/2 : ℚ) < (RTDType.val RTDType.PT100 : ℚ) := by
  apply calc_t_correction_iff_below_nominal RTDType.PT100 (101/2)
  simp only [calc_t, corr_table]
  rw [if_neg (by rw [r_max_PT100]; norm_num [RTDType.val]),
    if_pos (by rw [r_min_PT100]; norm_num [RTDType.val])]
  rfl

/-- C9: the two internal `unwrap` calls of `calc_t` are always applied to `Ok`
values (`calc_r` succeeds at -200 and at 850 for every variant), and `calc_t`
is total: on every input it returns either `Ok` or `Err(OutOfBounds)` — never
a panic, and never `NonexistentType`. -/
theorem calc_r_bounds_ok_calc_t_total :
    ∀ r_0 : RTDType,
      (calc_r (-200) r_0).isOk = true ∧ (calc_r 850 r_0).isOk = true ∧
      ∀ r : ℚ, (calc_t r r_0).isOk = true ∨ calc_t r r_0 = .error .OutOfBounds := by
  intro r_0
  refine ⟨?_, ?_, fun r => ?_⟩
  · rw [calc_r_cubic (-200) r_0 (by norm_num) (by norm_num)]
    rfl
  · rw [calc_r_quad 850 r_0 (by norm_num) (by norm_num)]
    rfl
  · cases r_0 <;>
    · simp only [calc_t, corr_table]
      split_ifs <;> simp [Except.isOk, Except.toBool]

end RTD
